import Mathlib

/-!
Verification of the PPO continuous-action training loop
(`purejaxrl/ppo_continuous_action.py`) against its natural-language
specification.

The shallow embedding below translates the relevant pieces of the source
into Lean. JAX arrays of floats are modelled as lists of rationals
(elementwise array arithmetic becomes arithmetic on list entries), except
for the instrumentation diagnostics where IEEE semantics matters: there a
small float-value type `Fl` with non-finite elements is used. `jax.lax.scan`
becomes an explicit structural recursion (`scanList` forward,
`scanRev` for `reverse=True`). Functions of the source keep their names
where Lean allows.
-/

namespace PureJaxRL

/-- Arithmetic mean of a list of rationals, modelling `jnp.mean` on a float
array. (The empty case, `0 / 0 = 0` in `ℚ`, is never hit on the nonempty
arrays the program feeds it.) -/
def mean (xs : List ℚ) : ℚ := xs.sum / (xs.length : ℚ)

/-- Forward `jax.lax.scan`: threads a carry through the list from the head,
collecting the per-step outputs in order. -/
def scanList {C X Y : Type} (f : C → X → C × Y) : C → List X → C × List Y
  | c, [] => (c, [])
  | c, x :: xs =>
    ((scanList f (f c x).1 xs).1, (f c x).2 :: (scanList f (f c x).1 xs).2)

/-- `jax.lax.scan` with `reverse=True`: the carry is threaded from the last
element towards the first, and the collected outputs keep the original
(forward) index order, as in JAX. -/
def scanRev {C X Y : Type} (f : C → X → C × Y) : C → List X → C × List Y
  | c, [] => (c, [])
  | c, x :: rest =>
    ((f (scanRev f c rest).1 x).1,
     (f (scanRev f c rest).1 x).2 :: (scanRev f c rest).2)

/-! ## Advantage Estimator (GAE), source lines 208-231

One parallel-environment lane is modelled; the `(NUM_STEPS, NUM_ENVS)`
arrays of the source are vectorized elementwise over the environment axis,
so each lane evolves independently by exactly this scalar recursion. -/

/-- The fields of a `Transition` read by `_calculate_gae`
(`transition.done, transition.value, transition.reward`). `done` is the
boolean episode-termination flag; `1 - done` in the source promotes it to a
float. -/
structure GaeStep where
  done : Bool
  value : ℚ
  reward : ℚ
  deriving Repr, DecidableEq

/-- Hyperparameters read by `_calculate_gae`. -/
structure GaeConfig where
  GAMMA : ℚ
  GAE_LAMBDA : ℚ
  deriving Repr, DecidableEq

/-- `1 - done` of the source: boolean promoted to a number. -/
def notDone (d : Bool) : ℚ := 1 - (if d then (1 : ℚ) else 0)

/-- Body of the reverse scan in `_calculate_gae` (source lines 209-221):
carry is `(gae, next_value)`, step reads `(done, value, reward)` of one
transition and emits the new `gae`. -/
def _get_advantages (cfg : GaeConfig) (carry : ℚ × ℚ) (t : GaeStep) :
    (ℚ × ℚ) × ℚ :=
  let delta := t.reward + cfg.GAMMA * carry.2 * notDone t.done - t.value
  let gae := delta + cfg.GAMMA * cfg.GAE_LAMBDA * notDone t.done * carry.1
  ((gae, t.value), gae)

/-- `_calculate_gae` (source lines 208-231): reverse scan with initial carry
`(jnp.zeros_like(last_val), last_val)`, returning
`(advantages, advantages + traj_batch.value)`. -/
def _calculate_gae (cfg : GaeConfig) (traj_batch : List GaeStep)
    (last_val : ℚ) : List ℚ × List ℚ :=
  let advantages := (scanRev (_get_advantages cfg) (0, last_val) traj_batch).2
  (advantages, List.zipWith (· + ·) advantages (traj_batch.map GaeStep.value))

/-- Modelled from the spec's words (§4.2), for comparison with
`_calculate_gae`: the backward recursion
`delta_t = reward_t + γ·V_{t+1}·(1 − done_t) − value_t`,
`gae_t = delta_t + γ·λ·(1 − done_t)·gae_{t+1}` with `gae_{T+1} = 0` and
`V_{T+1}` the supplied bootstrap value. -/
def gaeSpecList (cfg : GaeConfig) : List GaeStep → ℚ → List ℚ
  | [], _ => []
  | t :: rest, last_val =>
    let tail := gaeSpecList cfg rest last_val
    let next_value := (rest.map GaeStep.value).headD last_val
    let next_gae := tail.headD 0
    let delta := t.reward + cfg.GAMMA * next_value * notDone t.done - t.value
    (delta + cfg.GAMMA * cfg.GAE_LAMBDA * notDone t.done * next_gae) :: tail

theorem scanRev_gae_eq (cfg : GaeConfig) (last_val : ℚ) (l : List GaeStep) :
    scanRev (_get_advantages cfg) (0, last_val) l
      = (((gaeSpecList cfg l last_val).headD 0,
          (l.map GaeStep.value).headD last_val),
         gaeSpecList cfg l last_val) := by
  induction l with
  | nil => simp [scanRev, gaeSpecList]
  | cons t rest ih => simp [scanRev, gaeSpecList, _get_advantages, ih]

theorem scanRev_append {C X Y : Type} (f : C → X → C × Y) (c : C)
    (l1 l2 : List X) :
    scanRev f c (l1 ++ l2)
      = ((scanRev f (scanRev f c l2).1 l1).1,
         (scanRev f (scanRev f c l2).1 l1).2 ++ (scanRev f c l2).2) := by
  induction l1 with
  | nil => simp [scanRev]
  | cons x xs ih => simp [scanRev, ih]

theorem scanRev_length {C X Y : Type} (f : C → X → C × Y) (c : C)
    (l : List X) : (scanRev f c l).2.length = l.length := by
  induction l with
  | nil => simp [scanRev]
  | cons x xs ih => simp [scanRev, ih]

theorem _get_advantages_done (cfg : GaeConfig) (carry : ℚ × ℚ) (t : GaeStep)
    (hd : t.done = true) :
    _get_advantages cfg carry t
      = ((t.reward - t.value, t.value), t.reward - t.value) := by
  simp [_get_advantages, notDone, hd]

/-- Claim C1: `_calculate_gae` computes advantages by the backward
recursion `delta_t = reward_t + γ·V_{t+1}·(1 − done_t) − value_t`,
`gae_t = delta_t + γ·λ·(1 − done_t)·gae_{t+1}`, with `gae_{T+1} = 0` and
`V_{T+1}` the supplied bootstrap value, and returns
`target_t = gae_t + value_t`; and at every step with `done_t = 1` the
contributions of `V_{t+1}` and of `gae_{t+1}` are zeroed, so the
advantages of the steps up to and including the reset are independent of
everything after the reset (any suffix and any bootstrap value). -/
theorem gae_backward_recursion_correct (cfg : GaeConfig)
    (traj pre suf suf' : List GaeStep) (t : GaeStep) (lv lv' : ℚ)
    (hd : t.done = true) :
    (_calculate_gae cfg traj lv).1 = gaeSpecList cfg traj lv
    ∧ (_calculate_gae cfg traj lv).2
        = List.zipWith (· + ·) (gaeSpecList cfg traj lv)
            (traj.map GaeStep.value)
    ∧ ((_calculate_gae cfg (pre ++ t :: suf) lv).1.take (pre.length + 1)
        = (_calculate_gae cfg (pre ++ t :: suf') lv').1.take
            (pre.length + 1)) := by
  refine ⟨by simp [_calculate_gae, scanRev_gae_eq], ?_, ?_⟩
  · simp [_calculate_gae, scanRev_gae_eq]
  · have key : ∀ (s : List GaeStep) (v : ℚ),
        scanRev (_get_advantages cfg) (0, v) (t :: s)
          = ((t.reward - t.value, t.value),
             (t.reward - t.value) :: (scanRev (_get_advantages cfg) (0, v) s).2) := by
      intro s v
      simp [scanRev, _get_advantages_done cfg _ t hd]
    have expand : ∀ (s : List GaeStep) (v : ℚ),
        (_calculate_gae cfg (pre ++ t :: s) v).1.take (pre.length + 1)
          = (scanRev (_get_advantages cfg) (t.reward - t.value, t.value) pre).2
              ++ [t.reward - t.value] := by
      intro s v
      have h1 := scanRev_append (_get_advantages cfg) (0, v) pre (t :: s)
      simp only [_calculate_gae, h1, key s v]
      rw [List.take_append_eq_append_take]
      have hlen : (scanRev (_get_advantages cfg) (t.reward - t.value, t.value) pre).2.length
          = pre.length := scanRev_length _ _ _
      simp [hlen, List.take_succ_cons]
  -- combine the two expansions
      -- (handled by simp above)
    rw [expand suf lv, expand suf' lv']

/-- Witness for C1 at concrete data: a two-step trajectory with a reset in
the middle; all three conjuncts evaluate on explicit inputs. -/
theorem gae_backward_recursion_correct_witness :
    ((⟨true, 2, 5⟩ : GaeStep).done = true)
    ∧ (_calculate_gae ⟨99/100, 95/100⟩
          [⟨false, 1, 1⟩, ⟨true, 2, 5⟩, ⟨false, 0, 1⟩] 7).1
        = gaeSpecList ⟨99/100, 95/100⟩
          [⟨false, 1, 1⟩, ⟨true, 2, 5⟩, ⟨false, 0, 1⟩] 7
    ∧ (_calculate_gae ⟨99/100, 95/100⟩
          [⟨false, 1, 1⟩, ⟨true, 2, 5⟩, ⟨false, 0, 1⟩] 7).2
        = List.zipWith (· + ·)
            (gaeSpecList ⟨99/100, 95/100⟩
              [⟨false, 1, 1⟩, ⟨true, 2, 5⟩, ⟨false, 0, 1⟩] 7)
            ([⟨false, 1, 1⟩, ⟨true, 2, 5⟩, ⟨false, 0, 1⟩].map GaeStep.value)
    ∧ ((_calculate_gae ⟨99/100, 95/100⟩
          ([⟨false, 1, 1⟩] ++ ⟨true, 2, 5⟩ :: [⟨false, 0, 1⟩]) 7).1.take 2
        = (_calculate_gae ⟨99/100, 95/100⟩
            ([⟨false, 1, 1⟩] ++ ⟨true, 2, 5⟩ :: []) (-3)).1.take 2) := by
  have h := gae_backward_recursion_correct ⟨99/100, 95/100⟩
    [⟨false, 1, 1⟩, ⟨true, 2, 5⟩, ⟨false, 0, 1⟩]
    [⟨false, 1, 1⟩] [⟨false, 0, 1⟩] [] ⟨true, 2, 5⟩ 7 (-3) rfl
  exact ⟨rfl, h.1, h.2.1, h.2.2⟩

/-! ## Configuration and derived quantities, source lines 125-131, 140-146, 161 -/

/-- The configuration scalars read by the training loop. `NUM_UPDATES` and
`MINIBATCH_SIZE` are not fields: the source derives them in `make_train`
(lines 126-131), modelled as the definitions below. -/
structure TrainCfg where
  TOTAL_TIMESTEPS : ℕ
  NUM_STEPS : ℕ
  NUM_ENVS : ℕ
  NUM_MINIBATCHES : ℕ
  UPDATE_EPOCHS : ℕ
  LR : ℚ
  ANNEAL_LR : Bool
  deriving Repr, DecidableEq

/-- `config["NUM_UPDATES"] = TOTAL_TIMESTEPS // NUM_STEPS // NUM_ENVS`
(source lines 126-128), with Python `//` = `Nat` floor division. -/
def TrainCfg.NUM_UPDATES (c : TrainCfg) : ℕ :=
  c.TOTAL_TIMESTEPS / c.NUM_STEPS / c.NUM_ENVS

/-- `config["MINIBATCH_SIZE"] = NUM_ENVS * NUM_STEPS // NUM_MINIBATCHES`
(source lines 129-131). -/
def TrainCfg.MINIBATCH_SIZE (c : TrainCfg) : ℕ :=
  c.NUM_ENVS * c.NUM_STEPS / c.NUM_MINIBATCHES

/-- `linear_schedule` (source lines 140-146):
`frac = 1.0 - (count // (NUM_MINIBATCHES * UPDATE_EPOCHS)) / NUM_UPDATES;`
`return LR * frac`. `count` is the optimizer step counter (a Python int,
so `//` is integer floor division and the final `/` is exact division). -/
def linear_schedule (c : TrainCfg) (count : ℕ) : ℚ :=
  c.LR * (1 - ((count / (c.NUM_MINIBATCHES * c.UPDATE_EPOCHS) : ℕ) : ℚ)
    / (c.NUM_UPDATES : ℚ))

/-- `lr = linear_schedule if config["ANNEAL_LR"] else config["LR"]`
(source line 161), viewed as the learning rate used at optimizer step
`count`. -/
def lrOf (c : TrainCfg) (count : ℕ) : ℚ :=
  if c.ANNEAL_LR then linear_schedule c count else c.LR

/-- Claim C5: with annealing enabled the learning rate at optimizer step
`count` is `LR · (1 − (count // (NUM_MINIBATCHES·UPDATE_EPOCHS)) / NUM_UPDATES)`;
it is piecewise-constant within an update step, equals `LR` on every step
of update 0, is monotonically non-increasing, and is down to `LR / NUM_UPDATES`
at the final update (reaching exactly 0 one update-step-worth of counts
later); with annealing disabled it is the constant `LR`. -/
theorem linear_schedule_anneal_properties (c : TrainCfg)
    (hNU : 0 < c.NUM_UPDATES)
    (hME : 0 < c.NUM_MINIBATCHES * c.UPDATE_EPOCHS)
    (hLR : 0 ≤ c.LR) :
    (∀ count, c.ANNEAL_LR = true →
      lrOf c count
        = c.LR * (1 - ((count / (c.NUM_MINIBATCHES * c.UPDATE_EPOCHS) : ℕ) : ℚ)
            / (c.NUM_UPDATES : ℚ)))
    ∧ (∀ count count',
        count / (c.NUM_MINIBATCHES * c.UPDATE_EPOCHS)
          = count' / (c.NUM_MINIBATCHES * c.UPDATE_EPOCHS) →
        lrOf c count = lrOf c count')
    ∧ (∀ count, count < c.NUM_MINIBATCHES * c.UPDATE_EPOCHS →
        c.ANNEAL_LR = true → lrOf c count = c.LR)
    ∧ (∀ count count', count ≤ count' → c.ANNEAL_LR = true →
        lrOf c count' ≤ lrOf c count)
    ∧ (c.ANNEAL_LR = true →
        lrOf c ((c.NUM_UPDATES - 1) * (c.NUM_MINIBATCHES * c.UPDATE_EPOCHS))
          = c.LR / (c.NUM_UPDATES : ℚ))
    ∧ (c.ANNEAL_LR = true →
        lrOf c (c.NUM_UPDATES * (c.NUM_MINIBATCHES * c.UPDATE_EPOCHS)) = 0)
    ∧ (c.ANNEAL_LR = false → ∀ count, lrOf c count = c.LR) := by
  have hNUQ : ((c.NUM_UPDATES : ℚ)) ≠ 0 :=
    Nat.cast_ne_zero.mpr (Nat.pos_iff_ne_zero.mp hNU)
  have hNUpos : (0 : ℚ) < (c.NUM_UPDATES : ℚ) := by exact_mod_cast hNU
  refine ⟨?_, ?_, ?_, ?_, ?_, ?_, ?_⟩
  · intro count h; simp [lrOf, h, linear_schedule]
  · intro count count' hdiv
    by_cases h : c.ANNEAL_LR <;> simp [lrOf, h, linear_schedule, hdiv]
  · intro count hcount h
    have : count / (c.NUM_MINIBATCHES * c.UPDATE_EPOCHS) = 0 :=
      Nat.div_eq_of_lt hcount
    simp [lrOf, h, linear_schedule, this]
  · intro count count' hle h
    simp only [lrOf, h, if_true, linear_schedule]
    have h1 : count / (c.NUM_MINIBATCHES * c.UPDATE_EPOCHS)
        ≤ count' / (c.NUM_MINIBATCHES * c.UPDATE_EPOCHS) :=
      Nat.div_le_div_right hle
    have h2 : ((count / (c.NUM_MINIBATCHES * c.UPDATE_EPOCHS) : ℕ) : ℚ)
        ≤ ((count' / (c.NUM_MINIBATCHES * c.UPDATE_EPOCHS) : ℕ) : ℚ) := by
      exact_mod_cast h1
    have h3 : ((count / (c.NUM_MINIBATCHES * c.UPDATE_EPOCHS) : ℕ) : ℚ)
          / (c.NUM_UPDATES : ℚ)
        ≤ ((count' / (c.NUM_MINIBATCHES * c.UPDATE_EPOCHS) : ℕ) : ℚ)
          / (c.NUM_UPDATES : ℚ) :=
      (div_le_div_iff_of_pos_right hNUpos).mpr h2
    have h4 : (1 : ℚ) - ((count' / (c.NUM_MINIBATCHES * c.UPDATE_EPOCHS) : ℕ) : ℚ)
          / (c.NUM_UPDATES : ℚ)
        ≤ 1 - ((count / (c.NUM_MINIBATCHES * c.UPDATE_EPOCHS) : ℕ) : ℚ)
          / (c.NUM_UPDATES : ℚ) := by linarith
    exact mul_le_mul_of_nonneg_left h4 hLR
  · intro h
    have hdiv : (c.NUM_UPDATES - 1) * (c.NUM_MINIBATCHES * c.UPDATE_EPOCHS)
        / (c.NUM_MINIBATCHES * c.UPDATE_EPOCHS) = c.NUM_UPDATES - 1 :=
      Nat.mul_div_cancel _ hME
    have hfrac : (1 : ℚ) - ((c.NUM_UPDATES : ℚ) - 1) / (c.NUM_UPDATES : ℚ)
        = 1 / (c.NUM_UPDATES : ℚ) := by field_simp
    simp only [lrOf, h, if_true, linear_schedule, hdiv, Nat.cast_sub hNU,
      Nat.cast_one, hfrac, mul_one_div]
  · intro h
    have hdiv : c.NUM_UPDATES * (c.NUM_MINIBATCHES * c.UPDATE_EPOCHS)
        / (c.NUM_MINIBATCHES * c.UPDATE_EPOCHS) = c.NUM_UPDATES :=
      Nat.mul_div_cancel _ hME
    simp only [lrOf, h, if_true, linear_schedule, hdiv, div_self hNUQ,
      sub_self, mul_zero]
  · intro h count; simp [lrOf, h]

/-- Concrete configuration for the C5 witness: `NUM_UPDATES = 40/10/1 = 4`,
`NUM_MINIBATCHES * UPDATE_EPOCHS = 6`, `LR = 1/2`, annealing on. -/
def cfgLr : TrainCfg := ⟨40, 10, 1, 2, 3, 1/2, true⟩

/-- Witness for C5: at the concrete configuration `cfgLr`, the annealed
schedule equals `LR` inside update 0, has decreased by optimizer step 18,
and is exactly 0 after all `NUM_UPDATES · NUM_MINIBATCHES · UPDATE_EPOCHS`
optimizer steps. -/
theorem linear_schedule_anneal_properties_witness :
    lrOf cfgLr 5 = cfgLr.LR
    ∧ lrOf cfgLr 18 ≤ lrOf cfgLr 5
    ∧ lrOf cfgLr 24 = 0 := by
  have h := linear_schedule_anneal_properties cfgLr
    (by decide) (by decide) (by norm_num [cfgLr])
  refine ⟨h.2.2.1 5 (by decide) rfl, h.2.2.2.1 5 18 (by decide) rfl, ?_⟩
  have h24 := h.2.2.2.2.2.1 rfl
  rwa [show cfgLr.NUM_UPDATES * (cfgLr.NUM_MINIBATCHES * cfgLr.UPDATE_EPOCHS)
      = 24 by decide] at h24

/-! ## Instrumentation, source lines 90-122 and 236-293

The diagnostics divide by a mean that can be zero, so their value domain is
modelled by `Fl`: a finite rational or one of the IEEE non-finite values.
The only operation that can produce a non-finite value here is the division
of two (nonnegative) means; comparisons follow IEEE (`nan ≤ τ` is false). -/

/-- A float value: finite (exact rational) or an IEEE non-finite value. -/
inductive Fl where
  | nan : Fl
  | posinf : Fl
  | neginf : Fl
  | num : ℚ → Fl
  deriving Repr, DecidableEq

/-- IEEE division of two finite values: `0/0 = nan`, `±x/0 = ±inf`. -/
def fdivRat (a b : ℚ) : Fl :=
  if b = 0 then (if a = 0 then Fl.nan else if 0 < a then Fl.posinf else Fl.neginf)
  else Fl.num (a / b)

/-- IEEE `≤` against a finite threshold: false for `nan` and `+inf`, true
for `-inf`. -/
def Fl.leRat (x : Fl) (c : ℚ) : Bool :=
  match x with
  | .nan => false
  | .posinf => false
  | .neginf => true
  | .num q => decide (q ≤ c)

/-- Finiteness of a float value. -/
def Fl.isFinite (x : Fl) : Bool :=
  match x with
  | .num _ => true
  | _ => false

/-- `jnp.mean` of a boolean array: the booleans are promoted to `0/1`
floats and averaged; the result is always finite. -/
def meanBool (bs : List Bool) : ℚ := mean (bs.map (fun b => if b then 1 else 0))

/-- The trailing-axis slices of an array viewed as rows × trailing-axis:
`jax.vmap(f, in_axes=-1, out_axes=-1)` maps `f` over these columns. -/
def columns (m : List (List ℚ)) : List (List ℚ) :=
  (List.range (m.headD []).length).map (fun j => m.map (fun row => row.getD j 0))

/-- `_layer_dormancy` inside `dormancy_rate` (source lines 91-104):
`activations = jnp.abs(activations); layer_mean = activations.mean()`; per
trailing-axis neuron, `(jnp.mean(activations) / layer_mean) <= tau`
(the V2 branch of the source); the layer value is `jnp.mean` of those
booleans. The array is modelled as rows × neurons (a rank-1 array is a
single row). -/
def _layer_dormancy (tau : ℚ) (activations : List (List ℚ)) : Fl :=
  let a := activations.map (fun row => row.map (fun x => |x|))
  let layer_mean := mean a.join
  let neuron_dormant :=
    (columns a).map (fun col => (fdivRat (mean col) layer_mean).leRat tau)
  Fl.num (meanBool neuron_dormant)

/-- `dormancy_rate` (source lines 90-106): `jax.tree_map(_layer_dormancy)`
over the per-layer activation dict, modelled as a list of layers. -/
def dormancy_rate (tau : ℚ) (activations : List (List (List ℚ))) : List Fl :=
  activations.map (_layer_dormancy tau)

/-- `_threshold_grad_second_moment` inside `threshold_grad_second_moment`
(source lines 110-120): the per-sample squared-gradient tensor is reshaped
to `(shape[0], -1)` — modelled as already samples × slots — its overall
mean taken, and per trailing-axis slot
`(jnp.mean(slot) / gsm_mean) <= zeta_abs` is averaged. -/
def _threshold_grad_second_moment (zeta_abs : ℚ) (gsm : List (List ℚ)) : Fl :=
  let gsm_mean := mean gsm.join
  let threshold_gsm :=
    (columns gsm).map (fun col => (fdivRat (mean col) gsm_mean).leRat zeta_abs)
  Fl.num (meanBool threshold_gsm)

/-- `threshold_grad_second_moment` (source lines 109-122): `jax.tree_map`
over the gradient tree, modelled as a list of parameter tensors. -/
def threshold_grad_second_moment (zeta_abs : ℚ)
    (grad_second_moment : List (List (List ℚ))) : List Fl :=
  grad_second_moment.map (_threshold_grad_second_moment zeta_abs)

/-- Per-slot mean over the sample axis: `jnp.mean(x, axis=0)` on a
samples × slots array. -/
def meanAxis0 (rows : List (List ℚ)) : List ℚ :=
  (List.range (rows.headD []).length).map
    (fun j => mean (rows.map (fun r => r.getD j 0)))

/-- Regroup per-sample gradients (samples × layers × slots, the output of
the vmapped `value_and_grad`) into the per-layer stacked form
(layers × samples × slots) that the gradient pytree has in the source. -/
def stackLayers (perSample : List (List (List ℚ))) (nLayers : ℕ) :
    List (List (List ℚ)) :=
  (List.range nLayers).map (fun l => perSample.map (fun g => g.getD l []))

/-- `_update_minbatch` (source lines 236-293). The vmapped
`value_and_grad(_loss_fn)` is abstracted into per-sample functions:
`lossOf` (the per-sample total loss, subsuming the advantage normalization
of line 238 and lines 239-275), `gradOf` (the per-sample gradient,
layers × slots) and `actsOf` (the per-sample per-layer activation vector
that `_loss_fn` passes to `dormancy_rate`). The concrete steps of lines
281-293 are kept: square the per-sample gradients, threshold them with
`zeta`, average the gradients over the sample axis (line 287), apply them
(line 288), and return the losses with the diagnostics appended. -/
def _update_minbatch {TS S : Type}
    (applyGradients : TS → List (List ℚ) → TS)
    (lossOf : TS → S → ℚ)
    (gradOf : TS → S → List (List ℚ))
    (actsOf : TS → S → List (List ℚ))
    (nLayers : ℕ) (tau zeta : ℚ)
    (ts : TS) (batch : List S) :
    TS × (List ℚ × List (List Fl) × List Fl) :=
  let total_loss := batch.map (lossOf ts)
  let dormancies :=
    batch.map (fun s => dormancy_rate tau ((actsOf ts s).map (fun v => [v])))
  let grads := stackLayers (batch.map (gradOf ts)) nLayers
  let grad_second_moment :=
    grads.map (fun layer => layer.map (fun row => row.map (fun x => x * x)))
  let threshold_gsm := threshold_grad_second_moment zeta grad_second_moment
  let gradsAvg := grads.map meanAxis0
  let ts' := applyGradients ts gradsAvg
  (ts', (total_loss, dormancies, threshold_gsm))

/-- Claim C6: the two instrumentation diagnostics are purely
observational — for every model state and minibatch the new model state is
independent of the thresholds `TAU` and `zeta`, and equals the optimizer
applied to the sample-axis average of the per-sample gradients, an
expression in which no diagnostic occurs. -/
theorem diagnostics_noninterference {TS S : Type}
    (applyGradients : TS → List (List ℚ) → TS)
    (lossOf : TS → S → ℚ) (gradOf : TS → S → List (List ℚ))
    (actsOf : TS → S → List (List ℚ)) (nLayers : ℕ)
    (tau zeta tau' zeta' : ℚ) (ts : TS) (batch : List S) :
    (_update_minbatch applyGradients lossOf gradOf actsOf nLayers
        tau zeta ts batch).1
      = (_update_minbatch applyGradients lossOf gradOf actsOf nLayers
          tau' zeta' ts batch).1
    ∧ (_update_minbatch applyGradients lossOf gradOf actsOf nLayers
        tau zeta ts batch).1
      = applyGradients ts
          ((stackLayers (batch.map (gradOf ts)) nLayers).map meanAxis0) :=
  ⟨rfl, rfl⟩

theorem mean_of_all_zero {xs : List ℚ} (h : ∀ x ∈ xs, x = 0) : mean xs = 0 := by
  have : xs.sum = 0 := List.sum_eq_zero h
  simp [mean, this]

theorem getD_of_all_zero {row : List ℚ} (h : ∀ x ∈ row, x = 0) (j : ℕ) :
    row.getD j 0 = 0 := by
  rcases h' : row[j]? with _ | v
  · simp [List.getD, h']
  · have hv : v ∈ row := List.getElem?_mem h'
    simp [List.getD, h', h v hv]

theorem meanBool_all_false {bs : List Bool} (h : ∀ b ∈ bs, b = false) :
    meanBool bs = 0 := by
  apply mean_of_all_zero
  intro x hx
  rcases List.mem_map.mp hx with ⟨b, hb, rfl⟩
  simp [h b hb]

/-- Claim C9 (amended): when a dormancy or gradient-second-moment
denominator is zero (all activations of a layer zero, or all squared
gradient entries zero), the computation is not separately guarded: every
neuron/slot ratio is the IEEE `0/0 = NaN`. The `≤ τ` comparison is false
on NaN, so the reported rate is the finite value 0 rather than a
non-finite value; and the gradients and parameter update of the same
minibatch pass equal the diagnostic-free optimizer application
regardless. -/
theorem zero_denominator_nan_absorbed {TS S : Type}
    (applyGradients : TS → List (List ℚ) → TS)
    (lossOf : TS → S → ℚ) (gradOf : TS → S → List (List ℚ))
    (actsOf : TS → S → List (List ℚ)) (nLayers : ℕ)
    (tau zeta : ℚ) (acts gsm : List (List ℚ))
    (hacts : ∀ row ∈ acts, ∀ x ∈ row, x = 0)
    (hgsm : ∀ row ∈ gsm, ∀ x ∈ row, x = 0)
    (ts : TS) (batch : List S) :
    (∀ col ∈ columns (acts.map (fun row => row.map (fun x => |x|))),
        fdivRat (mean col)
          (mean (acts.map (fun row => row.map (fun x => |x|))).join) = Fl.nan)
    ∧ _layer_dormancy tau acts = Fl.num 0
    ∧ _threshold_grad_second_moment zeta gsm = Fl.num 0
    ∧ (_update_minbatch applyGradients lossOf gradOf actsOf nLayers
        tau zeta ts batch).1
      = applyGradients ts
          ((stackLayers (batch.map (gradOf ts)) nLayers).map meanAxis0) := by
  have habs : ∀ row ∈ acts.map (fun row => row.map (fun x => |x|)),
      ∀ x ∈ row, x = 0 := by
    intro row hrow x hx
    rcases List.mem_map.mp hrow with ⟨r0, hr0, rfl⟩
    rcases List.mem_map.mp hx with ⟨y, hy, rfl⟩
    simp [hacts r0 hr0 y hy]
  have hcolzero : ∀ {m : List (List ℚ)}, (∀ row ∈ m, ∀ x ∈ row, x = 0) →
      ∀ col ∈ columns m, ∀ x ∈ col, x = 0 := by
    intro m hm col hcol x hx
    rcases List.mem_map.mp hcol with ⟨j, _, rfl⟩
    rcases List.mem_map.mp hx with ⟨row, hrow, rfl⟩
    exact getD_of_all_zero (hm row hrow) j
  have hjoinzero : ∀ {m : List (List ℚ)}, (∀ row ∈ m, ∀ x ∈ row, x = 0) →
      ∀ x ∈ m.join, x = 0 := by
    intro m hm x hx
    rcases List.mem_join.mp hx with ⟨row, hrow, hxrow⟩
    exact hm row hrow x hxrow
  have hnan : ∀ col ∈ columns (acts.map (fun row => row.map (fun x => |x|))),
      fdivRat (mean col)
        (mean (acts.map (fun row => row.map (fun x => |x|))).join) = Fl.nan := by
    intro col hcol
    rw [mean_of_all_zero (hcolzero habs col hcol),
      mean_of_all_zero (hjoinzero habs)]
    simp [fdivRat]
  refine ⟨hnan, ?_, ?_, rfl⟩
  · have hfalse : ∀ b ∈ (columns (acts.map (fun row => row.map (fun x => |x|)))).map
        (fun col => (fdivRat (mean col)
          (mean (acts.map (fun row => row.map (fun x => |x|))).join)).leRat tau),
        b = false := by
      intro b hb
      rcases List.mem_map.mp hb with ⟨col, hcol, rfl⟩
      rw [hnan col hcol]
      rfl
    simp only [_layer_dormancy]
    exact congrArg Fl.num (meanBool_all_false hfalse)
  · have hfalse : ∀ b ∈ (columns gsm).map
        (fun col => (fdivRat (mean col) (mean gsm.join)).leRat zeta),
        b = false := by
      intro b hb
      rcases List.mem_map.mp hb with ⟨col, hcol, rfl⟩
      rw [mean_of_all_zero (hcolzero hgsm col hcol),
        mean_of_all_zero (hjoinzero hgsm)]
      rfl
    simp only [_threshold_grad_second_moment]
    exact congrArg Fl.num (meanBool_all_false hfalse)

/-- Counterexample to C9 as stated: at a layer whose activations (and a
tensor whose squared gradients) are all zero, the denominator is zero and
the internal ratio is the non-finite `0/0 = NaN`, yet the resulting
diagnostic values are the finite value 0 — they do not propagate as
non-finite, because the IEEE comparison `NaN ≤ τ` is false and the final
`jnp.mean` over booleans is always finite. -/
theorem zero_denominator_finite_diagnostic_cex :
    fdivRat (mean [(0 : ℚ)]) (mean [(0 : ℚ), 0]) = Fl.nan
    ∧ _layer_dormancy (1/10) [[(0 : ℚ), 0]] = Fl.num 0
    ∧ Fl.isFinite (_layer_dormancy (1/10) [[(0 : ℚ), 0]]) = true
    ∧ _threshold_grad_second_moment (1/10) [[(0 : ℚ), 0]] = Fl.num 0
    ∧ Fl.isFinite (_threshold_grad_second_moment (1/10) [[(0 : ℚ), 0]]) = true := by
  have h := @zero_denominator_nan_absorbed Unit Unit
    (fun ts _ => ts) (fun _ _ => 0) (fun _ _ => []) (fun _ _ => []) 0
    (1/10) (1/10) [[(0 : ℚ), 0]] [[(0 : ℚ), 0]]
    (by intro row hrow x hx; simp at hrow; subst hrow; simpa using hx)
    (by intro row hrow x hx; simp at hrow; subst hrow; simpa using hx)
    () []
  refine ⟨?_, h.2.1, ?_, h.2.2.1, ?_⟩
  · simp [mean, fdivRat]
  · rw [h.2.1]; rfl
  · rw [h.2.2.1]; rfl

/-- Witness for the amended C9 at the concrete all-zero layer. -/
theorem zero_denominator_nan_absorbed_witness :
    _layer_dormancy (1/10) [[(0 : ℚ), 0]] = Fl.num 0
    ∧ _threshold_grad_second_moment (1/10) [[(0 : ℚ), 0]] = Fl.num 0 := by
  have h := @zero_denominator_nan_absorbed Unit Unit
    (fun ts _ => ts) (fun _ _ => 0) (fun _ _ => []) (fun _ _ => []) 0
    (1/10) (1/10) [[(0 : ℚ), 0]] [[(0 : ℚ), 0]]
    (by intro row hrow x hx; simp at hrow; subst hrow; simpa using hx)
    (by intro row hrow x hx; simp at hrow; subst hrow; simpa using hx)
    () []
  exact ⟨h.2.1, h.2.2.1⟩

/-! ## Minibatch Scheduler, source lines 295-314

`batch = tree_map(reshape (batch_size, ...))` flattens the leading
`(NUM_STEPS, NUM_ENVS)` axes row-major — modelled by `List.join` on a
time-indexed list of env-indexed rows. `jnp.take(x, permutation, axis=0)`
is `takePerm`, and `reshape [NUM_MINIBATCHES, -1]` on the shuffled batch is
`splitMinibatches`. -/

/-- `jnp.take(xs, perm, axis=0)`: index `xs` at each entry of `perm` (the
default is irrelevant when every index is in range). -/
def takePerm {α : Type} (d : α) (perm : List ℕ) (xs : List α) : List α :=
  perm.map (fun i => xs.getD i d)

/-- `jnp.reshape(x, [m, -1])` on a length-`m·k` axis: `m` contiguous
chunks of size `k`. -/
def splitMinibatches {α : Type} (m k : ℕ) (xs : List α) : List (List α) :=
  match m with
  | 0 => []
  | m + 1 => xs.take k :: splitMinibatches m k (xs.drop k)

theorem range_map_getD {α : Type} (xs : List α) (d : α) :
    (List.range xs.length).map (fun i => xs.getD i d) = xs := by
  induction xs with
  | nil => simp
  | cons x xs ih =>
    rw [List.length_cons, List.range_succ_eq_map, List.map_cons, List.map_map]
    simpa [Function.comp_def] using ih

theorem takePerm_perm {α : Type} (d : α) (p : List ℕ) (xs : List α)
    (h : List.Perm p (List.range xs.length)) :
    List.Perm (takePerm d p xs) xs := by
  have h1 := h.map (fun i => xs.getD i d)
  rw [range_map_getD] at h1
  exact h1

theorem takePerm_length {α : Type} (d : α) (p : List ℕ) (xs : List α) :
    (takePerm d p xs).length = p.length := List.length_map _ _

theorem splitMinibatches_length {α : Type} (m k : ℕ) (xs : List α) :
    (splitMinibatches m k xs).length = m := by
  induction m generalizing xs with
  | zero => rfl
  | succ m ih => simp [splitMinibatches, ih]

theorem splitMinibatches_join {α : Type} (m k : ℕ) (xs : List α)
    (h : xs.length = m * k) : (splitMinibatches m k xs).join = xs := by
  induction m generalizing xs with
  | zero => simpa [splitMinibatches] using (List.length_eq_zero.mp (by simpa using h))
  | succ m ih =>
    have hdrop : (xs.drop k).length = m * k := by
      simp [List.length_drop, h, Nat.succ_mul]
    simp [splitMinibatches, ih (xs.drop k) hdrop]

theorem splitMinibatches_mem_length {α : Type} (m k : ℕ) (xs : List α)
    (h : xs.length = m * k) :
    ∀ mb ∈ splitMinibatches m k xs, mb.length = k := by
  induction m generalizing xs with
  | zero => simp [splitMinibatches]
  | succ m ih =>
    intro mb hmb
    rcases List.mem_cons.mp hmb with rfl | hmb'
    · have : k ≤ xs.length := by rw [h, Nat.succ_mul]; omega
      simp [List.length_take, this]
    · exact ih (xs.drop k) (by simp [List.length_drop, h, Nat.succ_mul]) mb hmb'

theorem takePerm_zip {α β : Type} (d1 : α) (d2 : β) (p : List ℕ)
    (xs : List α) (ys : List β) (hlen : xs.length = ys.length)
    (hb : ∀ i ∈ p, i < xs.length) :
    (takePerm d1 p xs).zip (takePerm d2 p ys)
      = takePerm (d1, d2) p (xs.zip ys) := by
  unfold takePerm
  rw [List.zip_map']
  apply List.map_congr_left
  intro i hi
  have hix : i < xs.length := hb i hi
  have hiy : i < ys.length := hlen ▸ hix
  have hizip : i < (xs.zip ys).length := by
    rw [List.length_zip, ← hlen, min_self]; exact hix
  rw [List.getD_eq_getElem _ _ hix, List.getD_eq_getElem _ _ hiy,
    List.getD_eq_getElem _ _ hizip, List.getElem_zip]

/-- Claim C3: in every epoch the scheduler flattens the `(time, env)` axes
into one batch axis, reorders the trajectory, advantage and target arrays
by the one permutation drawn for that epoch, and splits the result into
`NUM_MINIBATCHES` contiguous `MINIBATCH_SIZE`-size slices whose
concatenation is exactly the shuffled batch; hence the minibatches of one
epoch cover every sample of the flattened batch exactly once (a
permutation of it, no duplication). Stated for any value `permutation` of
`jax.random.permutation(_rng, batch_size)`, i.e. any permutation of
`range batch_size`. -/
theorem minibatch_scheduler_partitions_batch {Tr : Type} (c : TrainCfg)
    (dTr : Tr) (permutation : List ℕ)
    (batchT : List (List Tr)) (batchA batchG : List (List ℚ))
    (hperm : List.Perm permutation
      (List.range (c.MINIBATCH_SIZE * c.NUM_MINIBATCHES)))
    (hT : batchT.join.length = c.MINIBATCH_SIZE * c.NUM_MINIBATCHES)
    (hA : batchA.join.length = c.MINIBATCH_SIZE * c.NUM_MINIBATCHES)
    (hG : batchG.join.length = c.MINIBATCH_SIZE * c.NUM_MINIBATCHES) :
    List.Perm (splitMinibatches c.NUM_MINIBATCHES c.MINIBATCH_SIZE
        (takePerm dTr permutation batchT.join)).join batchT.join
    ∧ List.Perm (splitMinibatches c.NUM_MINIBATCHES c.MINIBATCH_SIZE
        (takePerm 0 permutation batchA.join)).join batchA.join
    ∧ List.Perm (splitMinibatches c.NUM_MINIBATCHES c.MINIBATCH_SIZE
        (takePerm 0 permutation batchG.join)).join batchG.join
    ∧ (splitMinibatches c.NUM_MINIBATCHES c.MINIBATCH_SIZE
        (takePerm dTr permutation batchT.join)).length = c.NUM_MINIBATCHES
    ∧ (∀ mb ∈ splitMinibatches c.NUM_MINIBATCHES c.MINIBATCH_SIZE
        (takePerm dTr permutation batchT.join),
        mb.length = c.MINIBATCH_SIZE)
    ∧ (takePerm dTr permutation batchT.join).zip
        ((takePerm 0 permutation batchA.join).zip
          (takePerm 0 permutation batchG.join))
      = takePerm (dTr, 0, 0) permutation
          (batchT.join.zip (batchA.join.zip batchG.join)) := by
  have hplen : permutation.length = c.MINIBATCH_SIZE * c.NUM_MINIBATCHES :=
    hperm.length_eq.trans (List.length_range _)
  have hbound : ∀ i ∈ permutation, i < c.MINIBATCH_SIZE * c.NUM_MINIBATCHES := by
    intro i hi
    have := (hperm.mem_iff).mp hi
    exact List.mem_range.mp this
  have hcover : ∀ {β : Type} (d : β) (b : List β),
      b.length = c.MINIBATCH_SIZE * c.NUM_MINIBATCHES →
      List.Perm (splitMinibatches c.NUM_MINIBATCHES c.MINIBATCH_SIZE
        (takePerm d permutation b)).join b := by
    intro β d b hb
    have hlen : (takePerm d permutation b).length
        = c.NUM_MINIBATCHES * c.MINIBATCH_SIZE := by
      rw [takePerm_length, hplen, mul_comm]
    rw [splitMinibatches_join _ _ _ hlen]
    exact takePerm_perm d permutation b (by rw [hb]; exact hperm)
  refine ⟨hcover dTr batchT.join hT, hcover 0 batchA.join hA,
    hcover 0 batchG.join hG, splitMinibatches_length _ _ _, ?_, ?_⟩
  · apply splitMinibatches_mem_length
    rw [takePerm_length, hplen, mul_comm]
  · have hAG : batchA.join.length = (batchG.join).length := hA.trans hG.symm
    have hTzip : batchT.join.length = (batchA.join.zip batchG.join).length := by
      rw [List.length_zip, ← hAG, min_self, hT, hA]
    rw [takePerm_zip 0 0 permutation _ _ hAG (fun i hi => hA ▸ hbound i hi),
      takePerm_zip dTr (0, 0) permutation _ _ hTzip
        (fun i hi => hT ▸ hbound i hi)]

/-- Concrete configuration for the C3 witness: 1 step, 2 envs,
2 minibatches, so `MINIBATCH_SIZE = 1` and batch axis 2. -/
def cfgSched : TrainCfg := ⟨4, 1, 2, 2, 1, 1, false⟩

/-- Witness for C3: the scheduler at a concrete permutation `[1, 0]` of a
2-sample batch covers the batch exactly once in 2 slices of size 1, and
reorders the advantage/target arrays identically to the trajectory. -/
theorem minibatch_scheduler_partitions_batch_witness :
    List.Perm (splitMinibatches cfgSched.NUM_MINIBATCHES cfgSched.MINIBATCH_SIZE
        (takePerm (0 : ℕ) [1, 0] [[10, 20]].join)).join [[10, 20]].join
    ∧ (splitMinibatches cfgSched.NUM_MINIBATCHES cfgSched.MINIBATCH_SIZE
        (takePerm (0 : ℕ) [1, 0] [[10, 20]].join)).length = cfgSched.NUM_MINIBATCHES
    ∧ (takePerm (0 : ℕ) [1, 0] [[10, 20]].join).zip
        ((takePerm 0 [1, 0] [[(1 : ℚ), 2]].join).zip
          (takePerm 0 [1, 0] [[(5 : ℚ), 6]].join))
      = takePerm ((0 : ℕ), (0 : ℚ), (0 : ℚ)) [1, 0]
          ([[10, 20]].join.zip ([[(1 : ℚ), 2]].join.zip [[(5 : ℚ), 6]].join)) := by
  have h := minibatch_scheduler_partitions_batch cfgSched (0 : ℕ) [1, 0]
    [[10, 20]] [[(1 : ℚ), 2]] [[(5 : ℚ), 6]]
    (by decide) (by decide) (by norm_num [cfgSched, TrainCfg.MINIBATCH_SIZE])
    (by norm_num [cfgSched, TrainCfg.MINIBATCH_SIZE])
  exact ⟨h.1, h.2.2.2.1, h.2.2.2.2.2⟩

/-! ## Training driver, source lines 148-371

The driver is modelled operationally (the order in which the Python code
executes its statements when evaluated directly): within one `_update_step`
the rollout scan runs, then `_calculate_gae`, then the epoch scan whose body
contains the Python `assert` of lines 298-300; a failed `assert` raises and
aborts the run. The model emits an event per executed phase so that
"before X executes" is statable. The network/environment pieces that the
claims treat as black boxes are parameters: `collectF` is the rollout scan
of `_env_step` (lines 179-202), `advF` is `network.apply` on `last_obs`
followed by `_calculate_gae` (lines 205-232), `updMB` is the minibatch
updater (`_update_minbatch`), `split` is `jax.random.split` and `randPerm`
is `jax.random.permutation`. -/

/-- One executed phase of an update step: the rollout collection scan, the
advantage (GAE) computation, or one minibatch parameter update. -/
inductive Ev where
  | rollout : Ev
  | gaeCalc : Ev
  | paramUpdate : Ev
  deriving Repr, DecidableEq

/-- `update_state = (train_state, traj_batch, advantages, targets, rng)`
(source lines 295, 318, 321): the state threaded through the epoch scan.
`traj_batch` keeps its `(NUM_STEPS, NUM_ENVS)` leading axes. -/
structure UState (TS Tr K : Type) where
  train_state : TS
  traj_batch : List (List Tr)
  advantages : List (List ℚ)
  targets : List (List ℚ)
  rng : K

/-- `_update_epoch` (source lines 235-319): split the PRNG, check the
Python `assert batch_size == NUM_STEPS * NUM_ENVS` (lines 297-300; on
failure the run aborts with the assertion message), draw the permutation,
flatten and shuffle the three arrays identically, split them into
minibatches, and scan the minibatch updater over them. Returns the events
it executed alongside the result; the arrays are threaded through
unchanged (line 318). -/
def _update_epoch {TS Tr K M : Type} (c : TrainCfg) (dTr : Tr)
    (split : K → K × K) (randPerm : K → ℕ → List ℕ)
    (updMB : TS → List Tr × List ℚ × List ℚ → TS × M)
    (us : UState TS Tr K) :
    List Ev × Except String (UState TS Tr K × List M) :=
  let rngs := split us.rng
  let batch_size := c.MINIBATCH_SIZE * c.NUM_MINIBATCHES
  if batch_size = c.NUM_STEPS * c.NUM_ENVS then
    let permutation := randPerm rngs.2 batch_size
    let shT := takePerm dTr permutation us.traj_batch.join
    let shA := takePerm 0 permutation us.advantages.join
    let shG := takePerm 0 permutation us.targets.join
    let mbT := splitMinibatches c.NUM_MINIBATCHES c.MINIBATCH_SIZE shT
    let mbA := splitMinibatches c.NUM_MINIBATCHES c.MINIBATCH_SIZE shA
    let mbG := splitMinibatches c.NUM_MINIBATCHES c.MINIBATCH_SIZE shG
    let minibatches := (mbT.zip (mbA.zip mbG)).map (fun p => (p.1, p.2.1, p.2.2))
    let res := scanList updMB us.train_state minibatches
    (List.replicate minibatches.length Ev.paramUpdate,
     Except.ok (UState.mk res.1 us.traj_batch us.advantages us.targets rngs.1,
       res.2))
  else
    ([], Except.error "batch size must be equal to number of steps * number of envs")

/-- The epoch scan `jax.lax.scan(_update_epoch, update_state, None,
UPDATE_EPOCHS)` (source lines 322-324), with the abort of a failed assert
propagated and the per-epoch metric stacks collected in order. -/
def epochLoop {TS Tr K M : Type} (c : TrainCfg) (dTr : Tr)
    (split : K → K × K) (randPerm : K → ℕ → List ℕ)
    (updMB : TS → List Tr × List ℚ × List ℚ → TS × M) :
    ℕ → UState TS Tr K →
      List Ev × Except String (UState TS Tr K × List (List M))
  | 0, us => ([], Except.ok (us, []))
  | n + 1, us =>
    match _update_epoch c dTr split randPerm updMB us with
    | (evs, Except.error e) => (evs, Except.error e)
    | (evs, Except.ok (us', ms)) =>
      match epochLoop c dTr split randPerm updMB n us' with
      | (evs', Except.error e) => (evs ++ evs', Except.error e)
      | (evs', Except.ok (us'', mss)) => (evs ++ evs', Except.ok (us'', ms :: mss))

/-- `_update_step` (source lines 177-362): rollout scan (`collectF`,
emitting `Ev.rollout`), advantage computation (`advF`, emitting
`Ev.gaeCalc`), then the epoch scan; the new runner state is
`(train_state, env_state, last_obs, rng)` (line 361). -/
def _update_step {TS ES Ob Tr K M : Type} (c : TrainCfg) (dTr : Tr)
    (split : K → K × K) (randPerm : K → ℕ → List ℕ)
    (collectF : TS × ES × Ob × K → (TS × ES × Ob × K) × List (List Tr))
    (advF : TS × ES × Ob × K → List (List Tr) → List (List ℚ) × List (List ℚ))
    (updMB : TS → List Tr × List ℚ × List ℚ → TS × M)
    (rs : TS × ES × Ob × K) :
    List Ev × Except String ((TS × ES × Ob × K) × List (List M)) :=
  let collected := collectF rs
  let rs1 := collected.1
  let traj_batch := collected.2
  let gae := advF rs1 traj_batch
  let el := epochLoop c dTr split randPerm updMB c.UPDATE_EPOCHS
    (UState.mk rs1.1 traj_batch gae.1 gae.2 rs1.2.2.2)
  (Ev.rollout :: Ev.gaeCalc :: el.1,
   match el.2 with
   | Except.error e => Except.error e
   | Except.ok (us, mss) =>
     Except.ok ((us.train_state, rs1.2.1, rs1.2.2.1, us.rng), mss))

/-- The outer scan `jax.lax.scan(_update_step, runner_state, None,
NUM_UPDATES)` (source lines 366-368): iterate the update step, collecting
the per-update metric stacks, propagating an abort. -/
def trainLoop {TS ES Ob Tr K M : Type} (c : TrainCfg) (dTr : Tr)
    (split : K → K × K) (randPerm : K → ℕ → List ℕ)
    (collectF : TS × ES × Ob × K → (TS × ES × Ob × K) × List (List Tr))
    (advF : TS × ES × Ob × K → List (List Tr) → List (List ℚ) × List (List ℚ))
    (updMB : TS → List Tr × List ℚ × List ℚ → TS × M) :
    ℕ → (TS × ES × Ob × K) →
      List Ev × Except String ((TS × ES × Ob × K) × List (List (List M)))
  | 0, rs => ([], Except.ok (rs, []))
  | n + 1, rs =>
    match _update_step c dTr split randPerm collectF advF updMB rs with
    | (evs, Except.error e) => (evs, Except.error e)
    | (evs, Except.ok (rs', mss)) =>
      match trainLoop c dTr split randPerm collectF advF updMB n rs' with
      | (evs', Except.error e) => (evs ++ evs', Except.error e)
      | (evs', Except.ok (rs'', msss)) => (evs ++ evs', Except.ok (rs'', mss :: msss))

/-- `train` (source lines 148-369): run `NUM_UPDATES` update steps from
the initial runner state. -/
def train {TS ES Ob Tr K M : Type} (c : TrainCfg) (dTr : Tr)
    (split : K → K × K) (randPerm : K → ℕ → List ℕ)
    (collectF : TS × ES × Ob × K → (TS × ES × Ob × K) × List (List Tr))
    (advF : TS × ES × Ob × K → List (List Tr) → List (List ℚ) × List (List ℚ))
    (updMB : TS → List Tr × List ℚ × List ℚ → TS × M)
    (rs : TS × ES × Ob × K) :
    List Ev × Except String ((TS × ES × Ob × K) × List (List (List M))) :=
  trainLoop c dTr split randPerm collectF advF updMB c.NUM_UPDATES rs

/-- Occurrences of an event in a trace. -/
def countEv (e : Ev) : List Ev → ℕ
  | [] => 0
  | x :: xs => (if x = e then 1 else 0) + countEv e xs

theorem countEv_append (e : Ev) (l1 l2 : List Ev) :
    countEv e (l1 ++ l2) = countEv e l1 + countEv e l2 := by
  induction l1 with
  | nil => simp [countEv]
  | cons x xs ih => simp [countEv, ih]; ring

theorem countEv_eq_zero_of_not_mem {e : Ev} {l : List Ev}
    (h : ∀ x ∈ l, x ≠ e) : countEv e l = 0 := by
  induction l with
  | nil => rfl
  | cons x xs ih =>
    simp only [countEv, if_neg (h x (by simp))]
    exact (Nat.zero_add _).trans (ih (fun y hy => h y (by simp [hy])))

theorem scanList_length {C X Y : Type} (f : C → X → C × Y) (c : C)
    (xs : List X) : (scanList f c xs).2.length = xs.length := by
  induction xs generalizing c with
  | nil => simp [scanList]
  | cons x xs ih => simp [scanList, ih]

theorem _update_epoch_ok_parts {TS Tr K M : Type} {c : TrainCfg} {dTr : Tr}
    {split : K → K × K} {randPerm : K → ℕ → List ℕ}
    {updMB : TS → List Tr × List ℚ × List ℚ → TS × M}
    {us us' : UState TS Tr K} {evs : List Ev} {ms : List M}
    (h : _update_epoch c dTr split randPerm updMB us = (evs, Except.ok (us', ms))) :
    ms.length = c.NUM_MINIBATCHES
    ∧ us'.traj_batch = us.traj_batch
    ∧ us'.advantages = us.advantages
    ∧ us'.targets = us.targets
    ∧ (∀ x ∈ evs, x = Ev.paramUpdate) := by
  simp only [_update_epoch] at h
  split at h
  · simp only [Prod.mk.injEq, Except.ok.injEq] at h
    obtain ⟨hevs, hus, hms⟩ := h
    subst hus
    subst hms
    refine ⟨?_, rfl, rfl, rfl, ?_⟩
    · rw [scanList_length, List.length_map, List.length_zip, List.length_zip,
        splitMinibatches_length, splitMinibatches_length,
        splitMinibatches_length, min_self, min_self]
    · intro x hx
      subst hevs
      exact List.eq_of_mem_replicate hx
  · simp at h

theorem epochLoop_ok_parts {TS Tr K M : Type} {c : TrainCfg} {dTr : Tr}
    {split : K → K × K} {randPerm : K → ℕ → List ℕ}
    {updMB : TS → List Tr × List ℚ × List ℚ → TS × M} :
    ∀ {n : ℕ} {us us' : UState TS Tr K} {evs : List Ev} {mss : List (List M)},
    epochLoop c dTr split randPerm updMB n us = (evs, Except.ok (us', mss)) →
    mss.length = n
    ∧ (∀ ms ∈ mss, ms.length = c.NUM_MINIBATCHES)
    ∧ us'.traj_batch = us.traj_batch
    ∧ us'.advantages = us.advantages
    ∧ us'.targets = us.targets
    ∧ (∀ x ∈ evs, x = Ev.paramUpdate) := by
  intro n
  induction n with
  | zero =>
    intro us us' evs mss h
    simp only [epochLoop, Prod.mk.injEq, Except.ok.injEq] at h
    obtain ⟨hevs, hus, hmss⟩ := h
    subst hevs; subst hus; subst hmss
    simp
  | succ n ih =>
    intro us us' evs mss h
    simp only [epochLoop] at h
    rcases he : _update_epoch c dTr split randPerm updMB us with ⟨evs0, r0⟩
    rw [he] at h
    cases r0 with
    | error e => simp at h
    | ok p =>
      rcases p with ⟨us0, ms0⟩
      dsimp only at h
      rcases hl : epochLoop c dTr split randPerm updMB n us0 with ⟨evs1, r1⟩
      rw [hl] at h
      cases r1 with
      | error e => simp at h
      | ok q =>
        rcases q with ⟨us1, mss1⟩
        simp only [Prod.mk.injEq, Except.ok.injEq] at h
        obtain ⟨hevs, hus, hmss⟩ := h
        subst hevs; subst hus; subst hmss
        obtain ⟨hms0, ht0, ha0, hg0, hev0⟩ := _update_epoch_ok_parts he
        obtain ⟨hlen1, hall1, ht1, ha1, hg1, hev1⟩ := ih hl
        refine ⟨by simp [hlen1], ?_, ht1.trans ht0, ha1.trans ha0,
          hg1.trans hg0, ?_⟩
        · intro ms hms
          rcases List.mem_cons.mp hms with rfl | hms'
          · exact hms0
          · exact hall1 ms hms'
        · intro x hx
          rcases List.mem_append.mp hx with hx0 | hx1
          · exact hev0 x hx0
          · exact hev1 x hx1

/-- Claim C8: within one update step, the trajectory, advantage and target
arrays threaded through the epoch scan are never mutated: whatever number
of epochs the scan runs, the arrays in the resulting update state equal
the ones the update step computed before the first epoch. -/
theorem update_epoch_preserves_arrays {TS Tr K M : Type} (c : TrainCfg)
    (dTr : Tr) (split : K → K × K) (randPerm : K → ℕ → List ℕ)
    (updMB : TS → List Tr × List ℚ × List ℚ → TS × M) (n : ℕ)
    (us us' : UState TS Tr K) (evs : List Ev) (mss : List (List M))
    (h : epochLoop c dTr split randPerm updMB n us = (evs, Except.ok (us', mss))) :
    us'.traj_batch = us.traj_batch
    ∧ us'.advantages = us.advantages
    ∧ us'.targets = us.targets := by
  obtain ⟨-, -, ht, ha, hg, -⟩ := epochLoop_ok_parts h
  exact ⟨ht, ha, hg⟩

/-! Concrete instantiations of the driver's black-box parameters, used by
the counterexamples and witnesses below: a trivial PRNG, the identity
permutation, a 1-step/2-env rollout with fixed numbers, and a minibatch
updater whose metric records the advantage slice it was fed. -/

/-- A violating configuration: `NUM_ENVS·NUM_STEPS = 2` is not divisible by
`NUM_MINIBATCHES = 3`, so `MINIBATCH_SIZE = 0` and
`MINIBATCH_SIZE·NUM_MINIBATCHES = 0 ≠ 2`; `NUM_UPDATES = 4/2/1 = 2`. -/
def cfgViol : TrainCfg := ⟨4, 2, 1, 3, 1, 1, false⟩

/-- A valid configuration with two minibatches: `NUM_STEPS = 1`,
`NUM_ENVS = 2`, `NUM_MINIBATCHES = 2`, `MINIBATCH_SIZE = 1`,
`NUM_UPDATES = 1`, one epoch. -/
def cfgMB : TrainCfg := ⟨2, 1, 2, 2, 1, 1, false⟩

/-- A configuration with `TOTAL_TIMESTEPS < NUM_STEPS · NUM_ENVS`, hence
`NUM_UPDATES = 0`. -/
def cfgTiny : TrainCfg := ⟨1, 2, 1, 1, 1, 1, false⟩

def splitU : Unit → Unit × Unit := fun _ => ((), ())

def permId : Unit → ℕ → List ℕ := fun _ n => List.range n

def collectQ : Unit × Unit × Unit × Unit →
    (Unit × Unit × Unit × Unit) × List (List ℚ) :=
  fun rs => (rs, [[10, 20]])

def advQ : Unit × Unit × Unit × Unit → List (List ℚ) →
    List (List ℚ) × List (List ℚ) :=
  fun _ _ => ([[1, 2]], [[5, 6]])

def updMBQ : Unit → List ℚ × List ℚ × List ℚ → Unit × List ℚ :=
  fun ts mb => (ts, mb.2.1)

/-- Witness for C8: one full epoch at the concrete two-minibatch instance;
the hypothesis (the epoch scan succeeded) is discharged by evaluation and
the returned update state carries the trajectory/advantage/target arrays
unchanged. -/
theorem update_epoch_preserves_arrays_witness :
    epochLoop cfgMB (0 : ℚ) splitU permId updMBQ 1
        (UState.mk () [[(10 : ℚ), 20]] [[(1 : ℚ), 2]] [[(5 : ℚ), 6]] ())
      = (List.replicate 2 Ev.paramUpdate,
         Except.ok (UState.mk () [[(10 : ℚ), 20]] [[(1 : ℚ), 2]] [[(5 : ℚ), 6]] (),
           [[[1], [2]]]))
    ∧ (UState.mk () [[(10 : ℚ), 20]] [[(1 : ℚ), 2]] [[(5 : ℚ), 6]] ()).traj_batch
        = [[(10 : ℚ), 20]] := by
  have h := update_epoch_preserves_arrays cfgMB (0 : ℚ) splitU permId updMBQ 1
    (UState.mk () [[(10 : ℚ), 20]] [[(1 : ℚ), 2]] [[(5 : ℚ), 6]] ())
    (UState.mk () [[(10 : ℚ), 20]] [[(1 : ℚ), 2]] [[(5 : ℚ), 6]] ())
    (List.replicate 2 Ev.paramUpdate) [[[1], [2]]] rfl
  exact ⟨rfl, h.1⟩

/-- Claim C7 (amended): the diagnostics reported for an update step are
collected from every minibatch pass of every epoch — the metric stack
returned by a successful update step has one entry per epoch, and each
epoch's entry has one sub-entry per minibatch (`NUM_MINIBATCHES` of them,
each produced by the minibatch updater from that minibatch's per-sample
artifacts), not only the last minibatch's. -/
theorem metrics_every_minibatch_reported {TS ES Ob Tr K M : Type}
    (c : TrainCfg) (dTr : Tr) (split : K → K × K)
    (randPerm : K → ℕ → List ℕ)
    (collectF : TS × ES × Ob × K → (TS × ES × Ob × K) × List (List Tr))
    (advF : TS × ES × Ob × K → List (List Tr) → List (List ℚ) × List (List ℚ))
    (updMB : TS → List Tr × List ℚ × List ℚ → TS × M)
    (rs rs' : TS × ES × Ob × K) (mss : List (List M))
    (h : (_update_step c dTr split randPerm collectF advF updMB rs).2
      = Except.ok (rs', mss)) :
    mss.length = c.UPDATE_EPOCHS
    ∧ ∀ ms ∈ mss, ms.length = c.NUM_MINIBATCHES := by
  simp only [_update_step] at h
  rcases hl : epochLoop c dTr split randPerm updMB c.UPDATE_EPOCHS
      (UState.mk (collectF rs).1.1 (collectF rs).2
        (advF (collectF rs).1 (collectF rs).2).1
        (advF (collectF rs).1 (collectF rs).2).2
        (collectF rs).1.2.2.2) with ⟨evs1, r1⟩
  rw [hl] at h
  cases r1 with
  | error e => simp at h
  | ok q =>
    rcases q with ⟨us1, mss1⟩
    dsimp only at h
    simp only [Except.ok.injEq, Prod.mk.injEq] at h
    obtain ⟨-, hmss⟩ := h
    subst hmss
    obtain ⟨hlen, hall, -, -, -, -⟩ := epochLoop_ok_parts hl
    exact ⟨hlen, hall⟩

/-- Counterexample to C7 as stated: at a concrete two-minibatch,
one-epoch instance the reported metric stack of the update step contains
the metrics of both minibatches of the epoch — two distinct entries — not
the metrics of only the last minibatch. -/
theorem metrics_not_last_minibatch_only_cex :
    (_update_step cfgMB (0 : ℚ) splitU permId collectQ advQ updMBQ
        ((), (), (), ())).2
      = Except.ok (((), (), (), ()), [[[(1 : ℚ)], [2]]])
    ∧ ([[(1 : ℚ)], [2]] : List (List ℚ)).length = 2
    ∧ ([(1 : ℚ)] : List ℚ) ≠ [2]
    ∧ cfgMB.NUM_MINIBATCHES ≠ 1 := by
  refine ⟨rfl, rfl, ?_, by decide⟩
  norm_num

/-- Witness for the amended C7 at the concrete instance: the hypothesis
(the update step succeeded) is discharged by evaluation. -/
theorem metrics_every_minibatch_reported_witness :
    ([[[(1 : ℚ)], [2]]] : List (List (List ℚ))).length = cfgMB.UPDATE_EPOCHS :=
  (metrics_every_minibatch_reported cfgMB (0 : ℚ) splitU permId collectQ advQ
    updMBQ ((), (), (), ()) ((), (), (), ()) [[[(1 : ℚ)], [2]]] rfl).1

/-- Claim C2 (amended): a configuration violating
`NUM_ENVS·NUM_STEPS = NUM_MINIBATCHES·MINIBATCH_SIZE` aborts the run with
the assertion message during the first epoch of the first update step —
before any minibatch parameter update executes — provided at least one
update step and one epoch are configured. (Under direct evaluation the
first rollout collection and GAE computation do execute first; the
spec's "pre-flight" reading holds only for `jax.jit` tracing.) -/
theorem divisibility_violation_aborts_before_param_update
    {TS ES Ob Tr K M : Type} (c : TrainCfg) (dTr : Tr) (split : K → K × K)
    (randPerm : K → ℕ → List ℕ)
    (collectF : TS × ES × Ob × K → (TS × ES × Ob × K) × List (List Tr))
    (advF : TS × ES × Ob × K → List (List Tr) → List (List ℚ) × List (List ℚ))
    (updMB : TS → List Tr × List ℚ × List ℚ → TS × M)
    (rs : TS × ES × Ob × K)
    (hviol : c.NUM_ENVS * c.NUM_STEPS ≠ c.NUM_MINIBATCHES * c.MINIBATCH_SIZE)
    (hupd : 1 ≤ c.NUM_UPDATES) (hep : 1 ≤ c.UPDATE_EPOCHS) :
    (train c dTr split randPerm collectF advF updMB rs).2
      = Except.error "batch size must be equal to number of steps * number of envs"
    ∧ Ev.paramUpdate ∉ (train c dTr split randPerm collectF advF updMB rs).1 := by
  have hguard : ¬ (c.MINIBATCH_SIZE * c.NUM_MINIBATCHES
      = c.NUM_STEPS * c.NUM_ENVS) := by
    intro h
    apply hviol
    rw [mul_comm c.NUM_ENVS c.NUM_STEPS, ← h]
    exact mul_comm _ _
  have hepoch : ∀ us : UState TS Tr K,
      _update_epoch c dTr split randPerm updMB us
        = ([], Except.error
            "batch size must be equal to number of steps * number of envs") := by
    intro us
    simp only [_update_epoch, if_neg hguard]
  obtain ⟨m, hm⟩ : ∃ m, c.UPDATE_EPOCHS = m + 1 :=
    ⟨c.UPDATE_EPOCHS - 1, (Nat.succ_pred_eq_of_pos hep).symm⟩
  have heloop : ∀ us : UState TS Tr K,
      epochLoop c dTr split randPerm updMB c.UPDATE_EPOCHS us
        = ([], Except.error
            "batch size must be equal to number of steps * number of envs") := by
    intro us
    rw [hm]
    simp [epochLoop, hepoch]
  have hstep : ∀ rs0 : TS × ES × Ob × K,
      _update_step c dTr split randPerm collectF advF updMB rs0
        = ([Ev.rollout, Ev.gaeCalc], Except.error
            "batch size must be equal to number of steps * number of envs") := by
    intro rs0
    simp [_update_step, heloop]
  obtain ⟨n, hn⟩ : ∃ n, c.NUM_UPDATES = n + 1 :=
    ⟨c.NUM_UPDATES - 1, (Nat.succ_pred_eq_of_pos hupd).symm⟩
  have htrain : train c dTr split randPerm collectF advF updMB rs
      = ([Ev.rollout, Ev.gaeCalc], Except.error
          "batch size must be equal to number of steps * number of envs") := by
    simp only [train, hn]
    simp [trainLoop, hstep]
  rw [htrain]
  exact ⟨rfl, by simp⟩

/-- Counterexample to C2 as stated: at the concrete violating
configuration `cfgViol` the run does abort with the assertion error, but
the trace shows the first rollout collection has already executed before
the abort — the violation is not detected before the first rollout
collection runs. -/
theorem divisibility_abort_after_rollout_cex :
    (train cfgViol (0 : ℚ) splitU permId collectQ advQ updMBQ
        ((), (), (), ())).2
      = Except.error "batch size must be equal to number of steps * number of envs"
    ∧ Ev.rollout ∈ (train cfgViol (0 : ℚ) splitU permId collectQ advQ updMBQ
        ((), (), (), ())).1 := by
  have h1 : (train cfgViol (0 : ℚ) splitU permId collectQ advQ updMBQ
      ((), (), (), ())).1 = [Ev.rollout, Ev.gaeCalc] := rfl
  refine ⟨rfl, ?_⟩
  rw [h1]
  simp

/-- Witness for the amended C2 at the concrete violating configuration. -/
theorem divisibility_violation_aborts_before_param_update_witness :
    (train cfgViol (0 : ℚ) splitU permId collectQ advQ updMBQ
        ((), (), (), ())).2
      = Except.error "batch size must be equal to number of steps * number of envs"
    ∧ Ev.paramUpdate ∉ (train cfgViol (0 : ℚ) splitU permId collectQ advQ
        updMBQ ((), (), (), ())).1 :=
  divisibility_violation_aborts_before_param_update cfgViol (0 : ℚ) splitU
    permId collectQ advQ updMBQ ((), (), (), ())
    (by decide) (by decide) (by decide)

theorem epochLoop_ok_of_div {TS Tr K M : Type} {c : TrainCfg} {dTr : Tr}
    {split : K → K × K} {randPerm : K → ℕ → List ℕ}
    {updMB : TS → List Tr × List ℚ × List ℚ → TS × M}
    (hdiv : c.MINIBATCH_SIZE * c.NUM_MINIBATCHES = c.NUM_STEPS * c.NUM_ENVS) :
    ∀ (n : ℕ) (us : UState TS Tr K),
      (∃ us' mss, (epochLoop c dTr split randPerm updMB n us).2
        = Except.ok (us', mss))
      ∧ (∀ x ∈ (epochLoop c dTr split randPerm updMB n us).1,
          x = Ev.paramUpdate) := by
  intro n
  induction n with
  | zero =>
    intro us
    exact ⟨⟨us, [], rfl⟩, by simp [epochLoop]⟩
  | succ n ih =>
    intro us
    rcases he : _update_epoch c dTr split randPerm updMB us with ⟨evs0, r0⟩
    have hr0 : ∃ us0 ms0, r0 = Except.ok (us0, ms0) := by
      rcases r0 with e | p
      · exfalso
        simp only [_update_epoch, if_pos hdiv, Prod.mk.injEq] at he
        exact absurd he.2.symm (by simp)
      · exact ⟨p.1, p.2, by simp⟩
    obtain ⟨us0, ms0, rfl⟩ := hr0
    have hev0 : ∀ x ∈ evs0, x = Ev.paramUpdate :=
      (_update_epoch_ok_parts he).2.2.2.2
    rcases hl : epochLoop c dTr split randPerm updMB n us0 with ⟨evs1, r1⟩
    obtain ⟨⟨us1, mss1, hok1⟩, hev1⟩ := ih us0
    rw [hl] at hok1 hev1
    simp only at hok1
    subst hok1
    constructor
    · refine ⟨us1, ms0 :: mss1, ?_⟩
      simp only [epochLoop]
      rw [he]
      dsimp only
      rw [hl]
    · simp only [epochLoop]
      rw [he]
      dsimp only
      rw [hl]
      intro x hx
      rcases List.mem_append.mp hx with hx0 | hx1
      · exact hev0 x hx0
      · exact hev1 x hx1

theorem _update_step_ok_of_div {TS ES Ob Tr K M : Type} {c : TrainCfg}
    {dTr : Tr} {split : K → K × K} {randPerm : K → ℕ → List ℕ}
    {collectF : TS × ES × Ob × K → (TS × ES × Ob × K) × List (List Tr)}
    {advF : TS × ES × Ob × K → List (List Tr) → List (List ℚ) × List (List ℚ)}
    {updMB : TS → List Tr × List ℚ × List ℚ → TS × M}
    (hdiv : c.MINIBATCH_SIZE * c.NUM_MINIBATCHES = c.NUM_STEPS * c.NUM_ENVS)
    (rs : TS × ES × Ob × K) :
    (∃ rs' mss, (_update_step c dTr split randPerm collectF advF updMB rs).2
      = Except.ok (rs', mss))
    ∧ countEv Ev.rollout
        (_update_step c dTr split randPerm collectF advF updMB rs).1 = 1 := by
  obtain ⟨⟨us1, mss1, hok⟩, hev⟩ := epochLoop_ok_of_div hdiv c.UPDATE_EPOCHS
    (UState.mk (collectF rs).1.1 (collectF rs).2
      (advF (collectF rs).1 (collectF rs).2).1
      (advF (collectF rs).1 (collectF rs).2).2
      (collectF rs).1.2.2.2)
  constructor
  · refine ⟨(us1.train_state, (collectF rs).1.2.1, (collectF rs).1.2.2.1,
      us1.rng), mss1, ?_⟩
    simp only [_update_step]
    rw [hok]
  · simp only [_update_step, countEv]
    have hzero : countEv Ev.rollout
        (epochLoop c dTr split randPerm updMB c.UPDATE_EPOCHS
          (UState.mk (collectF rs).1.1 (collectF rs).2
            (advF (collectF rs).1 (collectF rs).2).1
            (advF (collectF rs).1 (collectF rs).2).2
            (collectF rs).1.2.2.2)).1 = 0 :=
      countEv_eq_zero_of_not_mem (fun x hx => by rw [hev x hx]; decide)
    rw [hzero]
    simp

theorem trainLoop_ok_of_div {TS ES Ob Tr K M : Type} {c : TrainCfg}
    {dTr : Tr} {split : K → K × K} {randPerm : K → ℕ → List ℕ}
    {collectF : TS × ES × Ob × K → (TS × ES × Ob × K) × List (List Tr)}
    {advF : TS × ES × Ob × K → List (List Tr) → List (List ℚ) × List (List ℚ)}
    {updMB : TS → List Tr × List ℚ × List ℚ → TS × M}
    (hdiv : c.MINIBATCH_SIZE * c.NUM_MINIBATCHES = c.NUM_STEPS * c.NUM_ENVS) :
    ∀ (n : ℕ) (rs : TS × ES × Ob × K),
      (∃ rs' msss, (trainLoop c dTr split randPerm collectF advF updMB n rs).2
        = Except.ok (rs', msss))
      ∧ countEv Ev.rollout
          (trainLoop c dTr split randPerm collectF advF updMB n rs).1 = n := by
  intro n
  induction n with
  | zero =>
    intro rs
    exact ⟨⟨rs, [], rfl⟩, rfl⟩
  | succ n ih =>
    intro rs
    obtain ⟨⟨rs1, mss1, hok⟩, hcount⟩ :=
      @_update_step_ok_of_div TS ES Ob Tr K M c dTr split randPerm
        collectF advF updMB hdiv rs
    rcases hs : _update_step c dTr split randPerm collectF advF updMB rs
      with ⟨evs0, r0⟩
    rw [hs] at hok hcount
    simp only at hok hcount
    subst hok
    obtain ⟨⟨rs2, msss2, hok2⟩, hcount2⟩ := ih rs1
    rcases hl : trainLoop c dTr split randPerm collectF advF updMB n rs1
      with ⟨evs1, r1⟩
    rw [hl] at hok2 hcount2
    simp only at hok2
    subst hok2
    constructor
    · refine ⟨rs2, mss1 :: msss2, ?_⟩
      simp only [trainLoop]
      rw [hs]
      dsimp only
      rw [hl]
    · simp only [trainLoop]
      rw [hs]
      dsimp only
      rw [hl]
      rw [countEv_append, hcount, hcount2]
      omega

/-- Claim C10: `NUM_UPDATES` is the floor division
`TOTAL_TIMESTEPS // NUM_STEPS // NUM_ENVS`; the driver performs exactly
`NUM_UPDATES` update steps (one rollout each, each consuming
`NUM_STEPS · NUM_ENVS` environment timesteps), so the total consumed
timesteps `NUM_UPDATES · NUM_STEPS · NUM_ENVS` never exceed
`TOTAL_TIMESTEPS`; and when `TOTAL_TIMESTEPS < NUM_STEPS · NUM_ENVS` the
run performs zero update steps and returns the initial runner state
without error. (The exactly-`NUM_UPDATES` conjunct assumes the §3
divisibility invariant, without which the run aborts instead — claim C2.) -/
theorem num_updates_budget {TS ES Ob Tr K M : Type} (c : TrainCfg) (dTr : Tr)
    (split : K → K × K) (randPerm : K → ℕ → List ℕ)
    (collectF : TS × ES × Ob × K → (TS × ES × Ob × K) × List (List Tr))
    (advF : TS × ES × Ob × K → List (List Tr) → List (List ℚ) × List (List ℚ))
    (updMB : TS → List Tr × List ℚ × List ℚ → TS × M)
    (rs : TS × ES × Ob × K) :
    c.NUM_UPDATES = c.TOTAL_TIMESTEPS / c.NUM_STEPS / c.NUM_ENVS
    ∧ c.NUM_UPDATES * c.NUM_STEPS * c.NUM_ENVS ≤ c.TOTAL_TIMESTEPS
    ∧ (c.MINIBATCH_SIZE * c.NUM_MINIBATCHES = c.NUM_STEPS * c.NUM_ENVS →
        countEv Ev.rollout
            (train c dTr split randPerm collectF advF updMB rs).1
          = c.NUM_UPDATES
        ∧ ∃ rs' msss, (train c dTr split randPerm collectF advF updMB rs).2
            = Except.ok (rs', msss))
    ∧ (c.TOTAL_TIMESTEPS < c.NUM_STEPS * c.NUM_ENVS →
        c.NUM_UPDATES = 0
        ∧ train c dTr split randPerm collectF advF updMB rs
            = ([], Except.ok (rs, []))) := by
  have hdd : c.NUM_UPDATES = c.TOTAL_TIMESTEPS / (c.NUM_STEPS * c.NUM_ENVS) := by
    rw [TrainCfg.NUM_UPDATES, Nat.div_div_eq_div_mul]
  refine ⟨rfl, ?_, ?_, ?_⟩
  · calc c.NUM_UPDATES * c.NUM_STEPS * c.NUM_ENVS
        = c.TOTAL_TIMESTEPS / (c.NUM_STEPS * c.NUM_ENVS)
            * (c.NUM_STEPS * c.NUM_ENVS) := by rw [hdd, mul_assoc]
      _ ≤ c.TOTAL_TIMESTEPS := Nat.div_mul_le_self _ _
  · intro hdiv
    have h := @trainLoop_ok_of_div TS ES Ob Tr K M c dTr split randPerm
      collectF advF updMB hdiv c.NUM_UPDATES rs
    exact ⟨h.2, h.1⟩
  · intro hsmall
    have h0 : c.NUM_UPDATES = 0 := by
      rw [hdd]
      exact Nat.div_eq_of_lt hsmall
    refine ⟨h0, ?_⟩
    simp only [train, h0]
    rfl

/-- Witness for C10 at `cfgTiny` (`TOTAL_TIMESTEPS = 1 < 2 = NUM_STEPS ·
NUM_ENVS`, divisibility satisfied): zero rollouts, immediate successful
return of the initial runner state. -/
theorem num_updates_budget_witness :
    countEv Ev.rollout (train cfgTiny (0 : ℚ) splitU permId collectQ advQ
        updMBQ ((), (), (), ())).1 = cfgTiny.NUM_UPDATES
    ∧ train cfgTiny (0 : ℚ) splitU permId collectQ advQ updMBQ
        ((), (), (), ()) = ([], Except.ok (((), (), (), ()), []))
    ∧ cfgTiny.NUM_UPDATES * cfgTiny.NUM_STEPS * cfgTiny.NUM_ENVS
        ≤ cfgTiny.TOTAL_TIMESTEPS := by
  have h := num_updates_budget cfgTiny (0 : ℚ) splitU permId collectQ advQ
    updMBQ ((), (), (), ())
  exact ⟨(h.2.2.1 (by decide)).1, (h.2.2.2 (by decide)).2, h.2.1⟩

/-! ## Update Engine actor loss, source lines 239-267

The claim concerns the `CALCULATE ACTOR LOSS` block of `_loss_fn`
(lines 256-267). `jnp.exp` is transcendental, so it is a parameter `fexp`
of the model; the only property used is `exp 0 = 1`, which holds exactly
in IEEE arithmetic as well. The re-evaluated log-probability
`pi.log_prob(traj_batch.action)` (line 243) is `logProbF params obs action`
for an abstract pure network `logProbF`; the trajectory's recorded
`log_prob` was produced by the same function during the rollout
(lines 184-186). -/

/-- The fields of a minibatch `Transition` read by the actor loss: the
observation, the taken action and the rollout-time log-probability. -/
structure MBSample (O A : Type) where
  obs : O
  action : A
  log_prob : ℚ

/-- `jnp.clip(x, lo, hi)`. -/
def clipQ (x lo hi : ℚ) : ℚ := min (max x lo) hi

/-- The actor loss of `_loss_fn` (source lines 256-267):
`ratio = exp(log_prob - traj_batch.log_prob)`;
`loss_actor1 = ratio * gae`; `loss_actor2 = clip(ratio, 1-ε, 1+ε) * gae`;
`loss_actor = (-min(loss_actor1, loss_actor2)).mean()`. `gae` here is the
advantage array as fed to `_loss_fn` (already normalized by
`_update_minbatch`, line 238). -/
def loss_actor {P O A : Type} (logProbF : P → O → A → ℚ) (fexp : ℚ → ℚ)
    (clip_eps : ℚ) (params : P) (batch : List (MBSample O A))
    (gae : List ℚ) : ℚ :=
  let ratio := batch.map
    (fun s => fexp (logProbF params s.obs s.action - s.log_prob))
  let loss_actor1 := List.zipWith (· * ·) ratio gae
  let loss_actor2 := List.zipWith
    (fun r g => clipQ r (1 - clip_eps) (1 + clip_eps) * g) ratio gae
  mean (List.zipWith (fun a b => -(min a b)) loss_actor1 loss_actor2)

theorem sum_map_neg (l : List ℚ) : (l.map (fun x => -x)).sum = -l.sum := by
  induction l with
  | nil => simp
  | cons x xs ih => simp [ih]; ring

theorem mean_map_neg (l : List ℚ) : mean (l.map (fun x => -x)) = -(mean l) := by
  unfold mean
  rw [sum_map_neg, List.length_map, neg_div]

/-- Claim C4: when the loss is evaluated with the same parameters that
produced the trajectory's recorded log-probabilities — as at the very
first minibatch of the very first epoch of an update step, before any
parameter update of that step — the importance ratio equals 1 exactly for
every sample, and the clipped-surrogate policy loss reduces to
`-mean(gae)` for the advantages fed to the loss (for any clip `ε ≥ 0`). -/
theorem first_minibatch_ratio_one_loss {P O A : Type}
    (logProbF : P → O → A → ℚ) (fexp : ℚ → ℚ) (clip_eps : ℚ) (params : P)
    (batch : List (MBSample O A)) (gae : List ℚ)
    (hexp : fexp 0 = 1) (heps : 0 ≤ clip_eps)
    (hrec : ∀ s ∈ batch, s.log_prob = logProbF params s.obs s.action)
    (hlen : batch.length = gae.length) :
    (∀ s ∈ batch, fexp (logProbF params s.obs s.action - s.log_prob) = 1)
    ∧ loss_actor logProbF fexp clip_eps params batch gae = -(mean gae) := by
  have hone : ∀ s ∈ batch,
      fexp (logProbF params s.obs s.action - s.log_prob) = 1 := by
    intro s hs
    rw [hrec s hs, sub_self, hexp]
  have hclip : clipQ 1 (1 - clip_eps) (1 + clip_eps) = 1 := by
    unfold clipQ
    rw [max_eq_left (by linarith), min_eq_left (by linarith)]
  refine ⟨hone, ?_⟩
  have hcollapse : ∀ (bs : List (MBSample O A)) (gs : List ℚ),
      (∀ s ∈ bs, fexp (logProbF params s.obs s.action - s.log_prob) = 1) →
      List.zipWith (fun a b => -(min a b))
        (List.zipWith (· * ·)
          (bs.map (fun s => fexp (logProbF params s.obs s.action - s.log_prob)))
          gs)
        (List.zipWith (fun r g => clipQ r (1 - clip_eps) (1 + clip_eps) * g)
          (bs.map (fun s => fexp (logProbF params s.obs s.action - s.log_prob)))
          gs)
      = gs.map (fun g => -g) ∨ bs.length ≠ gs.length := by
    intro bs
    induction bs with
    | nil =>
      intro gs h1
      cases gs with
      | nil => left; rfl
      | cons g gs' => right; simp
    | cons s bs ih =>
      intro gs h1
      cases gs with
      | nil => right; simp
      | cons g gs' =>
        rcases ih gs' (fun t ht => h1 t (List.mem_cons_of_mem s ht)) with
          htail | hne
        · left
          simp only [List.map_cons, List.zipWith_cons_cons]
          rw [h1 s (List.mem_cons_self s bs), one_mul, hclip, one_mul, min_self,
            htail]
        · right
          simpa using hne
  rcases hcollapse batch gae hone with hcol | hne
  · simp only [loss_actor]
    rw [hcol, mean_map_neg]
  · exact absurd hlen hne

/-- Witness for C4: two samples whose recorded log-probabilities equal the
re-evaluated ones (constant-zero network), `ε = 1/5`, `fexp x = x + 1`
(satisfying `fexp 0 = 1`); the loss evaluates to `-mean([2, 4])`. -/
theorem first_minibatch_ratio_one_loss_witness :
    loss_actor (fun _ _ _ => (0 : ℚ)) (fun x => x + 1) (1/5) ()
        [⟨(), (), 0⟩, ⟨(), (), 0⟩] [2, 4] = -(mean [2, 4]) := by
  refine (first_minibatch_ratio_one_loss (fun _ _ _ => (0 : ℚ))
    (fun x => x + 1) (1/5) () [⟨(), (), 0⟩, ⟨(), (), 0⟩] [2, 4]
    (by norm_num) (by norm_num) ?_ rfl).2
  intro s hs
  rcases List.mem_cons.mp hs with rfl | hs'
  · rfl
  rcases List.mem_cons.mp hs' with rfl | h
  · rfl
  · simp at h

end PureJaxRL
